import Mathlib

/-!
Verification of the EEPROgraMmer host-side protocol driver (eepro/eepro.py).

The Python source is shallowly embedded: bytes are `Nat` (0..255), byte
strings are `List Nat`, the serial transport is a record holding the
sequence of results the device will deliver to `read()` and `readline()`
calls together with a trace of transport events.  Faults model the Python
exceptions raised by the driver.
-/

namespace EEPro

/-- Protocol control byte `esc_char = b"\x1B"` (eepro.py line 72). -/
def esc_char : Nat := 0x1B

/-- Protocol control byte `end_char = b"\x04"` (eepro.py line 73). -/
def end_char : Nat := 0x04

/-- Protocol control byte `ack_char = b"\x06"` (eepro.py line 74). -/
def ack_char : Nat := 0x06

/-- `EEProgrammer.escape_byte` (eepro.py lines 286-299): a byte equal to
`end_char` or `esc_char` is prefixed with `esc_char`; any other byte is
returned unchanged. -/
def escape_byte (byte : Nat) : List Nat :=
  if byte = end_char ∨ byte = esc_char then [esc_char, byte] else [byte]

/-- `EEProgrammer.escape_file_contents` (eepro.py lines 273-284): starts from
an empty bytearray and appends `escape_byte` of every input byte in order. -/
def escape_file_contents (contents : List Nat) : List Nat :=
  contents.foldl (fun acc b => acc ++ escape_byte b) []

theorem escape_foldl_acc (contents : List Nat) :
    ∀ acc : List Nat,
      contents.foldl (fun a b => a ++ escape_byte b) acc =
        acc ++ (contents.map escape_byte).flatten := by
  induction contents with
  | nil => intro acc; simp
  | cons b bs ih =>
    intro acc
    simp only [List.foldl_cons, List.map_cons, List.flatten_cons]
    rw [ih (acc ++ escape_byte b), List.append_assoc]

theorem escape_file_contents_eq (contents : List Nat) :
    escape_file_contents contents = (contents.map escape_byte).flatten := by
  simpa using escape_foldl_acc contents []

theorem escape_file_contents_cons (b : Nat) (bs : List Nat) :
    escape_file_contents (b :: bs) = escape_byte b ++ escape_file_contents bs := by
  rw [escape_file_contents_eq, escape_file_contents_eq]
  simp

/-- Result of the data-phase loop of `EEProgrammer.read_contents`
(eepro.py lines 235-257).  `done` means an unescaped `end_char` arrived and
the accumulated content is returned with the unconsumed read results;
`invalidEscape` models the AssertionError for a byte after `esc_char` that
is neither control byte (an empty timed-out read included); `diverges`
means the supply of read results is exhausted, so every further `read()`
returns the empty string and the Python `while True` loop never exits. -/
inductive LoopRes
  | done (content : List Nat) (rest : List (Option Nat))
  | invalidEscape (content : List Nat) (rest : List (Option Nat))
  | diverges (content : List Nat)
deriving DecidableEq, Repr

/-- The data-phase loop of `EEProgrammer.read_contents` (eepro.py lines
235-257), one step per `self.read()` result.  `none` models a timed-out
read returning `b""`: it is neither `end_char` nor `esc_char`, so the
concatenation `content += b""` is a no-op.  After an `esc_char`, the next
read result must be `end_char` or `esc_char`; anything else (a timeout
included) raises the invalid-escape AssertionError. -/
def readLoop : List Nat → List (Option Nat) → LoopRes
  | content, [] => LoopRes.diverges content
  | content, r :: rest =>
    if r = some end_char then LoopRes.done content rest
    else if r = some esc_char then
      match rest with
      | [] => LoopRes.invalidEscape content []
      | some b :: rest2 =>
        if b = end_char ∨ b = esc_char then readLoop (content ++ [b]) rest2
        else LoopRes.invalidEscape content rest2
      | none :: rest2 => LoopRes.invalidEscape content rest2
    else
      match r with
      | some b => readLoop (content ++ [b]) rest
      | none => readLoop content rest

theorem readLoop_nil (c : List Nat) : readLoop c [] = LoopRes.diverges c := rfl

theorem readLoop_end (c : List Nat) (rest : List (Option Nat)) :
    readLoop c (some end_char :: rest) = LoopRes.done c rest := by
  rw [readLoop.eq_def]
  simp

theorem readLoop_data (c : List Nat) (b : Nat) (rest : List (Option Nat))
    (h1 : b ≠ end_char) (h2 : b ≠ esc_char) :
    readLoop c (some b :: rest) = readLoop (c ++ [b]) rest := by
  rw [readLoop.eq_def]
  simp [h1, h2]

theorem readLoop_none (c : List Nat) (rest : List (Option Nat)) :
    readLoop c (none :: rest) = readLoop c rest := by
  rw [readLoop.eq_def]
  simp

theorem readLoop_esc_pair (c : List Nat) (b : Nat) (rest : List (Option Nat))
    (hb : b = end_char ∨ b = esc_char) :
    readLoop c (some esc_char :: some b :: rest) = readLoop (c ++ [b]) rest := by
  rw [readLoop.eq_def]
  have h1 : ¬ (some esc_char = some end_char) := by simp [esc_char, end_char]
  simp only [if_neg h1, if_pos rfl, if_pos hb]
  simp

theorem readLoop_esc_bad (c : List Nat) (b : Nat) (rest : List (Option Nat))
    (hb : ¬ (b = end_char ∨ b = esc_char)) :
    readLoop c (some esc_char :: some b :: rest) = LoopRes.invalidEscape c rest := by
  rw [readLoop.eq_def]
  have h1 : ¬ (some esc_char = some end_char) := by simp [esc_char, end_char]
  simp only [if_neg h1, if_pos rfl, if_neg hb]
  simp

theorem readLoop_esc_none (c : List Nat) (rest : List (Option Nat)) :
    readLoop c (some esc_char :: none :: rest) = LoopRes.invalidEscape c rest := by
  rw [readLoop.eq_def]
  have h1 : ¬ (some esc_char = some end_char) := by simp [esc_char, end_char]
  simp only [if_neg h1, if_pos rfl]
  simp

theorem readLoop_esc_last (c : List Nat) :
    readLoop c [some esc_char] = LoopRes.invalidEscape c [] := by
  rw [readLoop.eq_def]
  have h1 : ¬ (some esc_char = some end_char) := by simp [esc_char, end_char]
  simp only [if_neg h1, if_pos rfl]
  simp

theorem readLoop_escaped (S : List Nat) :
    ∀ (acc : List Nat) (rest : List (Option Nat)),
      readLoop acc ((escape_file_contents S).map some ++ some end_char :: rest) =
        LoopRes.done (acc ++ S) rest := by
  induction S with
  | nil =>
    intro acc rest
    simp only [escape_file_contents, List.foldl_nil, List.map_nil, List.nil_append]
    rw [readLoop_end]
    simp
  | cons b S ih =>
    intro acc rest
    rw [escape_file_contents_cons]
    by_cases hb : b = end_char ∨ b = esc_char
    · rw [escape_byte, if_pos hb]
      simp only [List.map_append, List.map_cons, List.map_nil, List.cons_append,
        List.nil_append, List.append_assoc]
      rw [readLoop_esc_pair _ _ _ hb, ih (acc ++ [b]) rest]
      simp
    · rw [escape_byte, if_neg hb]
      push_neg at hb
      simp only [List.map_append, List.map_cons, List.map_nil, List.cons_append,
        List.nil_append]
      rw [readLoop_data _ _ _ hb.1 hb.2, ih (acc ++ [b]) rest]
      simp

theorem readLoop_all_none (c : List Nat) :
    ∀ n : Nat, readLoop c (List.replicate n none) = LoopRes.diverges c := by
  intro n
  induction n with
  | zero => simp [readLoop]
  | succ n ih => rw [List.replicate_succ, readLoop_none, ih]

theorem readLoop_done_mem_key :
    ∀ (n : Nat) (reads : List (Option Nat)), reads.length ≤ n →
      ∀ (c out : List Nat) (rest : List (Option Nat)),
        readLoop c reads = LoopRes.done out rest → some end_char ∈ reads := by
  intro n
  induction n with
  | zero =>
    intro reads hle c out rest h
    have hnil : reads = [] := List.eq_nil_of_length_eq_zero (by omega)
    rw [hnil] at h
    simp [readLoop] at h
  | succ n ih =>
    intro reads hle c out rest h
    match reads with
    | [] => rw [readLoop_nil] at h; simp at h
    | r :: rs =>
      by_cases h1 : r = some end_char
      · rw [h1]; exact List.mem_cons_self _ _
      · by_cases h2 : r = some esc_char
        · subst h2
          match rs with
          | [] =>
            rw [readLoop_esc_last] at h
            simp at h
          | some b :: rs2 =>
            by_cases hb : b = end_char ∨ b = esc_char
            · rw [readLoop_esc_pair _ _ _ hb] at h
              have hlen : rs2.length ≤ n := by
                simp only [List.length_cons] at hle; omega
              have := ih rs2 hlen _ _ _ h
              exact List.mem_cons_of_mem _ (List.mem_cons_of_mem _ this)
            · rw [readLoop_esc_bad _ _ _ hb] at h
              simp at h
          | none :: rs2 =>
            rw [readLoop_esc_none] at h
            simp at h
        · have hlen : rs.length ≤ n := by
            simp only [List.length_cons] at hle; omega
          match r with
          | none =>
            rw [readLoop_none] at h
            exact List.mem_cons_of_mem _ (ih rs hlen _ _ _ h)
          | some b =>
            have hbe : b ≠ end_char := fun e => h1 (by rw [e])
            have hbs : b ≠ esc_char := fun e => h2 (by rw [e])
            rw [readLoop_data _ _ _ hbe hbs] at h
            exact List.mem_cons_of_mem _ (ih rs hlen _ _ _ h)

theorem readLoop_done_mem (reads : List (Option Nat)) (c out : List Nat)
    (rest : List (Option Nat)) (h : readLoop c reads = LoopRes.done out rest) :
    some end_char ∈ reads :=
  readLoop_done_mem_key reads.length reads (le_refl _) c out rest h

/-- A transport event: one `self.write(...)` call carrying its byte chunk,
one `self.read()` result, or one `self.readline()` result. -/
inductive Ev
  | send (chunk : List Nat)
  | recv (r : Option Nat)
  | recvLine (l : List Nat)
deriving DecidableEq, Repr

/-- The serial transport collaborator (pySerial `Serial`), modelled by the
sequence of results the device will deliver to successive `read()` calls
(`none` is a timed-out read returning `b""`), the sequence of results of
successive `readline()` calls, and the trace of transport events performed
so far.  Data-phase `read()` results consumed through `readLoop` are not
traced; no claim concerns them. -/
structure Transport where
  reads : List (Option Nat)
  lines : List (List Nat)
  trace : List Ev
deriving DecidableEq, Repr

/-- One `self.read()` call: pops the next read result; an exhausted supply
models a device that no longer answers, so the call times out (`none`). -/
def read1 (t : Transport) : Option Nat × Transport :=
  match t.reads with
  | [] => (none, ⟨[], t.lines, t.trace ++ [Ev.recv none]⟩)
  | r :: rs => (r, ⟨rs, t.lines, t.trace ++ [Ev.recv r]⟩)

/-- One `self.readline()` call: pops the next line result; an exhausted
supply yields `b""` (timeout). -/
def readLine (t : Transport) : List Nat × Transport :=
  match t.lines with
  | [] => ([], ⟨t.reads, [], t.trace ++ [Ev.recvLine []]⟩)
  | l :: ls => (l, ⟨t.reads, ls, t.trace ++ [Ev.recvLine l]⟩)

/-- Line-draining loop of `EEProgrammer.flush_read_buffer` (eepro.py lines
259-271): reads lines until an empty one arrives (or the supply is
exhausted, in which case `readline` times out returning `b""`), and returns
the concatenation, the remaining lines and the trace events produced. -/
def drainL : List (List Nat) → List Nat × List (List Nat) × List Ev
  | [] => ([], [], [Ev.recvLine []])
  | l :: ls =>
    if l = [] then ([], ls, [Ev.recvLine []])
    else
      let r := drainL ls
      (l ++ r.1, r.2.1, Ev.recvLine l :: r.2.2)

/-- `EEProgrammer.flush_read_buffer` (eepro.py lines 259-271). -/
def flushReadBuffer (t : Transport) : List Nat × Transport :=
  let r := drainL t.lines
  (r.1, ⟨t.reads, r.2.1, t.trace ++ r.2.2⟩)

/-- The faults the driver can raise.  `linkFault` is the ConnectionError of
`acknowledged_write` and carries the drained residual transport bytes
(decoded as ASCII by the source, which is injective, so the bytes are
kept); `unicodeDecodeError` is the UnicodeDecodeError raised by
`.decode("ascii")` when the drained residual contains a byte at or above
0x80, in which case the ConnectionError is never constructed;
`countMismatch`, `invalidEscape`, `contentMismatch` and `notFilled` are
AssertionErrors (carrying the two numbers of the message, or the two
`format_hex` renderings that the source passes to `difflib.context_diff`);
`typeError` is the TypeError raised by formatting a `bytes` value with the
non-empty format spec `02X`; `valueError` is the ValueError of `int()` on a
non-numeric line. -/
inductive Fault
  | linkFault (residual : List Nat)
  | unicodeDecodeError
  | countMismatch (got expected : Nat)
  | invalidEscape
  | contentMismatch (expected actual : List (List Char))
  | notFilled (fillByte : List Nat)
  | typeError
  | valueError
deriving DecidableEq, Repr

/-- Which faults are Python `AssertionError`s (relevant to the broad
`except AssertionError` in `check_filled`, eepro.py lines 179-184).
UnicodeDecodeError is a ValueError subclass, not an AssertionError. -/
def Fault.isAssertionError : Fault → Bool
  | Fault.countMismatch _ _ => true
  | Fault.invalidEscape => true
  | Fault.contentMismatch _ _ => true
  | Fault.notFilled _ => true
  | _ => false

/-- Python `bytes.decode("ascii")` succeeds exactly when every byte is
below 0x80; otherwise it raises UnicodeDecodeError. -/
def asciiDecodable (bs : List Nat) : Bool := bs.all (fun b => b < 128)

/-- `EEProgrammer.acknowledged_write` (eepro.py lines 87-101): write the
chunk (one `self.write` call), flush, read one response; anything other
than `ack_char` (a timeout included) takes the error path, which evaluates
`self.flush_read_buffer().decode("ascii")` while building the
ConnectionError — so the ConnectionError carrying the drained residual is
raised only when the residual is ASCII-decodable, and a UnicodeDecodeError
is raised instead when the residual contains a byte at or above 0x80. -/
def acknowledged_write (chunk : List Nat) (t : Transport) :
    Except (Fault × Transport) Transport :=
  let p := read1 ⟨t.reads, t.lines, t.trace ++ [Ev.send chunk]⟩
  if p.1 = some ack_char then Except.ok p.2
  else
    let q := flushReadBuffer p.2
    if asciiDecodable q.1 then Except.error (Fault.linkFault q.1, q.2)
    else Except.error (Fault.unicodeDecodeError, q.2)

/-- A sequence of `acknowledged_write` calls, aborting at the first fault
(the Python exception propagates). -/
def ackWriteChunks : List (List Nat) → Transport → Except (Fault × Transport) Transport
  | [], t => Except.ok t
  | c :: cs, t =>
    match acknowledged_write c t with
    | Except.ok t' => ackWriteChunks cs t'
    | Except.error e => Except.error e

/-- Decimal ASCII rendering of a number, little-endian digit list
(fuel-based so that it reduces definitionally). -/
def decRevF : Nat → Nat → List Nat
  | 0, _ => []
  | fuel + 1, n => if n = 0 then [] else (48 + n % 10) :: decRevF fuel (n / 10)

/-- Python `f-string` rendering `f"..."` of a non-negative integer as
decimal ASCII bytes (used for addresses and lengths). -/
def decAscii (n : Nat) : List Nat :=
  if n = 0 then [48] else (decRevF n n).reverse

/-- Python `int(...)` applied to the bytes of a line: ASCII whitespace is
stripped from both ends and the remainder must be a non-empty digit string
(sign handling is omitted: the device reports non-negative counts; a
non-numeric line raises ValueError, modelled by `none`). -/
def isSpaceByte (b : Nat) : Bool := b = 9 || b = 10 || b = 11 || b = 12 || b = 13 || b = 32

def isDigitByte (b : Nat) : Bool := 48 ≤ b && b ≤ 57

def parseDec (bs : List Nat) : Option Nat :=
  let core := ((bs.dropWhile isSpaceByte).reverse.dropWhile isSpaceByte).reverse
  if core.isEmpty then none
  else if core.all isDigitByte then
    some (core.foldl (fun a d => 10 * a + (d - 48)) 0)
  else none

/-- An in-memory byte stream (`io.BytesIO`): the data and the current read
position.  `read()` with no argument returns everything from the position
to the end and leaves the position at the end. -/
structure ByteStream where
  data : List Nat
  pos : Nat
deriving DecidableEq, Repr

def ByteStream.read (s : ByteStream) : List Nat × ByteStream :=
  (s.data.drop s.pos, ⟨s.data, s.data.length⟩)

/-- `FillBytes.__init__` (eepro.py lines 48-63): a `BytesIO` holding
`fill_byte * length`, position 0. -/
def FillBytes.make (fill_byte : List Nat) (length : Nat) : ByteStream :=
  ⟨(List.replicate length fill_byte).flatten, 0⟩

/-- The `Union[str, BinaryIO]` file argument of `write_file` and
`verify_file` (eepro.py lines 117-121 and 198-202): a path is opened fresh
and read whole; an already-open stream is read from its current position. -/
inductive FileLike
  | path (contents : List Nat)
  | stream (s : ByteStream)
deriving DecidableEq, Repr

def FileLike.readAll : FileLike → List Nat × FileLike
  | FileLike.path c => (c, FileLike.path c)
  | FileLike.stream s => ((ByteStream.read s).1, FileLike.stream (ByteStream.read s).2)

/-- The exact sequence of `acknowledged_write` chunks of
`EEProgrammer.write_file` (eepro.py lines 114-127): the two-byte command
token `"w "` (ASCII 119, 32), the decimal start address as one chunk, then
every byte of the escaped content as a one-byte chunk, then `end_char`. -/
def writeChunks (raw : List Nat) (start_address : Nat) : List (List Nat) :=
  [[119, 32], decAscii start_address] ++
    (escape_file_contents raw).map (fun b => [b]) ++ [[end_char]]

/-- `EEProgrammer.write_file` (eepro.py lines 103-134): read the content
source once, send all chunks acknowledged, then read one line, parse it as
the count of raw bytes the device received, and raise AssertionError if it
differs from the raw (unescaped) length. -/
def write_file (file : FileLike) (start_address : Nat) (t : Transport) :
    Except (Fault × Transport) Transport :=
  let raw := (FileLike.readAll file).1
  match ackWriteChunks (writeChunks raw start_address) t with
  | Except.error e => Except.error e
  | Except.ok t1 =>
    let p := readLine t1
    match parseDec p.1 with
    | none => Except.error (Fault.valueError, p.2)
    | some n =>
      if n = raw.length then Except.ok p.2
      else Except.error (Fault.countMismatch n raw.length, p.2)

/-- The trace expected from a run of consecutive `acknowledged_write`
calls that are all acknowledged: each chunk send immediately followed by
its `ack_char` response. -/
def interleaveAck : List (List Nat) → List Ev
  | [] => []
  | c :: cs => Ev.send c :: Ev.recv (some ack_char) :: interleaveAck cs

theorem acknowledged_write_ok (chunk : List Nat) (t : Transport)
    (rs : List (Option Nat)) (h : t.reads = some ack_char :: rs) :
    acknowledged_write chunk t =
      Except.ok ⟨rs, t.lines, t.trace ++ [Ev.send chunk, Ev.recv (some ack_char)]⟩ := by
  simp [acknowledged_write, read1, h]

theorem acknowledged_write_fail (chunk : List Nat) (t : Transport)
    (h : t.reads.head? ≠ some (some ack_char)) :
    ∃ t', acknowledged_write chunk t =
      Except.error
        ((if asciiDecodable (drainL t.lines).1 then Fault.linkFault (drainL t.lines).1
          else Fault.unicodeDecodeError), t') := by
  refine ⟨(flushReadBuffer (read1 ⟨t.reads, t.lines, t.trace ++ [Ev.send chunk]⟩).2).2, ?_⟩
  cases htr : t.reads with
  | nil =>
    by_cases hd : asciiDecodable (drainL t.lines).1 <;>
      simp [acknowledged_write, read1, htr, flushReadBuffer, hd]
  | cons r rs =>
    have hr : r ≠ some ack_char := by
      rw [htr] at h; simpa using h
    by_cases hd : asciiDecodable (drainL t.lines).1 <;>
      simp [acknowledged_write, read1, htr, flushReadBuffer, hr, hd]

theorem ackWriteChunks_allAck :
    ∀ (cs : List (List Nat)) (rRest : List (Option Nat)) (ls : List (List Nat)) (tr : List Ev),
      ackWriteChunks cs ⟨List.replicate cs.length (some ack_char) ++ rRest, ls, tr⟩ =
        Except.ok ⟨rRest, ls, tr ++ interleaveAck cs⟩ := by
  intro cs
  induction cs with
  | nil => intro rRest ls tr; simp [ackWriteChunks, interleaveAck]
  | cons c cs ih =>
    intro rRest ls tr
    have hstep := acknowledged_write_ok c
      ⟨List.replicate (c :: cs).length (some ack_char) ++ rRest, ls, tr⟩
      (List.replicate cs.length (some ack_char) ++ rRest)
      (by simp [List.replicate_succ])
    rw [ackWriteChunks, hstep]
    show ackWriteChunks cs
        ⟨List.replicate cs.length (some ack_char) ++ rRest, ls,
          tr ++ [Ev.send c, Ev.recv (some ack_char)]⟩ = _
    rw [ih]
    simp [interleaveAck]

theorem ackWriteChunks_sendFault :
    ∀ (cs : List (List Nat)) (t : Transport),
      (∃ i, i < cs.length ∧ t.reads[i]? ≠ some (some ack_char)) →
      ∃ f t', ackWriteChunks cs t = Except.error (f, t') ∧
        ((∃ residual, f = Fault.linkFault residual) ∨ f = Fault.unicodeDecodeError) := by
  intro cs
  induction cs with
  | nil =>
    rintro t ⟨i, hi, _⟩
    simp at hi
  | cons c cs ih =>
    rintro t ⟨i, hi, hbad⟩
    by_cases hh : t.reads.head? = some (some ack_char)
    · obtain ⟨rs, hrs⟩ : ∃ rs, t.reads = some ack_char :: rs := by
        cases htr : t.reads with
        | nil => rw [htr] at hh; simp at hh
        | cons a rs =>
          rw [htr] at hh
          simp only [List.head?_cons, Option.some.injEq] at hh
          exact ⟨rs, by rw [hh]⟩
      cases i with
      | zero =>
        rw [hrs] at hbad
        simp at hbad
      | succ j =>
        have hbad' : rs[j]? ≠ some (some ack_char) := by
          rw [hrs] at hbad
          simpa using hbad
        have hj : j < cs.length := by
          simp only [List.length_cons] at hi; omega
        obtain ⟨f, t', h', hf⟩ :=
          ih ⟨rs, t.lines, t.trace ++ [Ev.send c, Ev.recv (some ack_char)]⟩ ⟨j, hj, hbad'⟩
        refine ⟨f, t', ?_, hf⟩
        rw [ackWriteChunks, acknowledged_write_ok c t rs hrs]
        exact h'
    · obtain ⟨t', he⟩ := acknowledged_write_fail c t hh
      by_cases hd : asciiDecodable (drainL t.lines).1
      · rw [if_pos hd] at he
        exact ⟨Fault.linkFault (drainL t.lines).1, t',
          by rw [ackWriteChunks, he], Or.inl ⟨_, rfl⟩⟩
      · rw [if_neg hd] at he
        exact ⟨Fault.unicodeDecodeError, t',
          by rw [ackWriteChunks, he], Or.inr rfl⟩

/-- Result of `EEProgrammer.read_contents`: the returned raw bytes, a
fault, or non-termination of the data-phase loop (`hangs`, with the
content accumulated up to that point). -/
inductive ReadResult
  | ok (content : List Nat) (t : Transport)
  | fault (f : Fault) (t : Transport)
  | hangs (sofar : List Nat)
deriving DecidableEq, Repr

/-- The exact sequence of `acknowledged_write` chunks of
`EEProgrammer.read_contents` (eepro.py lines 228-230): the command token
`"r "` (ASCII 114, 32), then the decimal start address and the decimal
length, each as one chunk. -/
def readChunks (start_address length : Nat) : List (List Nat) :=
  [[114, 32], decAscii start_address, decAscii length]

/-- `EEProgrammer.read_contents` (eepro.py lines 215-257): send the header
chunks acknowledged, run the data-phase loop, then read the trailing count
line and compare the parsed number with the length of the escaped form of
the accumulated content (`len(escaped_content)`); on success return the
raw (unescaped) accumulated bytes. -/
def read_contents (start_address length : Nat) (t : Transport) : ReadResult :=
  match ackWriteChunks (readChunks start_address length) t with
  | Except.error (f, t') => ReadResult.fault f t'
  | Except.ok t1 =>
    match readLoop [] t1.reads with
    | LoopRes.diverges c => ReadResult.hangs c
    | LoopRes.invalidEscape _ rest => ReadResult.fault Fault.invalidEscape ⟨rest, t1.lines, t1.trace⟩
    | LoopRes.done content rest =>
      let p := readLine ⟨rest, t1.lines, t1.trace⟩
      match parseDec p.1 with
      | none => ReadResult.fault Fault.valueError p.2
      | some n =>
        if n = (escape_file_contents content).length then ReadResult.ok content p.2
        else ReadResult.fault (Fault.countMismatch (escape_file_contents content).length n) p.2

/-- Result of `verify_file` / `check_filled`. -/
inductive VerifyResult
  | ok (t : Transport)
  | fault (f : Fault) (t : Transport)
  | hangs
deriving DecidableEq, Repr

/-- Two uppercase hex digit characters and friends, for `format_hex`. -/
def hexDigitChar : Nat → Char
  | 0 => '0' | 1 => '1' | 2 => '2' | 3 => '3' | 4 => '4'
  | 5 => '5' | 6 => '6' | 7 => '7' | 8 => '8' | 9 => '9'
  | 10 => 'A' | 11 => 'B' | 12 => 'C' | 13 => 'D' | 14 => 'E' | 15 => 'F'
  | _ + 16 => '?'

/-- Uppercase hexadecimal digits of a number, big-endian, empty for 0
(fuel-based so that it reduces definitionally; padding supplies zeros). -/
def toHexF : Nat → Nat → List Char
  | 0, _ => []
  | fuel + 1, n => if n = 0 then [] else toHexF fuel (n / 16) ++ [hexDigitChar (n % 16)]

def toHexUpper (n : Nat) : List Char := toHexF n n

/-- Left-pad with `'0'` to the given width: the Python format specs `02X`
and `04X`. -/
def padLeft (w : Nat) (cs : List Char) : List Char :=
  List.replicate (w - cs.length) '0' ++ cs

/-- The per-byte piece `"(02X) "` of `format_hex` (eepro.py line 34). -/
def byteHex (b : Nat) : List Char := padLeft 2 (toHexUpper b) ++ [' ']

/-- The address piece `"0x(04X):    "` of `format_hex` (eepro.py line 35). -/
def addrHex (i : Nat) : List Char :=
  ['0', 'x'] ++ padLeft 4 (toHexUpper i) ++ [':', ' ', ' ', ' ', ' ']

/-- One iteration of the `format_hex` loop (eepro.py lines 38-43): at a
multiple of 8 a newline and the address prefix are appended first; at an
odd multiple of 4 a single space; then the formatted byte. -/
def fmtEntry (i b : Nat) : List Char :=
  (if i % 8 = 0 then '\n' :: addrHex i
   else if i % 4 = 0 then [' '] else []) ++ byteHex b

/-- The whole `format_hex` accumulator string, starting at index `i`. -/
def fmtFrom : Nat → List Nat → List Char
  | _, [] => []
  | i, b :: bs => fmtEntry i b ++ fmtFrom (i + 1) bs

/-- Python `str.split` on a single newline character: splits at every
occurrence, keeping empty pieces (so a leading newline yields a leading
empty piece, and splitting the empty string yields one empty piece). -/
def splitNl : List Char → List (List Char)
  | [] => [[]]
  | c :: cs =>
    if c = '\n' then [] :: splitNl cs
    else
      match splitNl cs with
      | [] => [[c]]
      | l :: ls => (c :: l) :: ls

/-- `format_hex` (eepro.py lines 18-45): build the accumulator string from
index 0 and split it on newlines.  Lines are char lists. -/
def format_hex (in_bytes : List Nat) : List (List Char) :=
  splitNl (fmtFrom 0 in_bytes)

/-- `EEProgrammer.verify_file` (eepro.py lines 186-213): read the content
source, read back as many bytes from the EEPROM, and on any difference
raise AssertionError carrying the diff of the two `format_hex` renderings
(the diff itself is display-only and modelled by the pair of renderings). -/
def verify_file (file : FileLike) (start_address : Nat) (t : Transport) : VerifyResult :=
  let raw := (FileLike.readAll file).1
  match read_contents start_address raw.length t with
  | ReadResult.hangs _ => VerifyResult.hangs
  | ReadResult.fault f t' => VerifyResult.fault f t'
  | ReadResult.ok eeprom t' =>
    if raw = eeprom then VerifyResult.ok t'
    else VerifyResult.fault (Fault.contentMismatch (format_hex raw) (format_hex eeprom)) t'

/-- `EEProgrammer.check_filled` (eepro.py lines 166-184): run `verify_file`
on a fresh `FillBytes` stream; any AssertionError is caught and the source
then evaluates the f-string `"EEPROM is not filled with 0x(fill_byte:02X)"`
with `fill_byte : bytes` — `bytes.__format__` rejects the non-empty spec
`02X`, so a TypeError is raised before the intended notFilled
AssertionError (or the `err.args[1]` lookup) is ever evaluated. -/
def check_filled (fill_byte : List Nat) (length start_address : Nat) (t : Transport) :
    VerifyResult :=
  match verify_file (FileLike.stream (FillBytes.make fill_byte length)) start_address t with
  | VerifyResult.fault f t' =>
    if f.isAssertionError then VerifyResult.fault Fault.typeError t'
    else VerifyResult.fault f t'
  | r => r

/-- An atomic transport action: one single byte sent, or one read
(a `read()` or `readline()` response). -/
inductive Atom
  | wr (b : Nat)
  | rd
deriving DecidableEq, Repr

def atomsOf : Ev → List Atom
  | Ev.send bs => bs.map Atom.wr
  | Ev.recv _ => [Atom.rd]
  | Ev.recvLine _ => [Atom.rd]

def atomsTrace (evs : List Ev) : List Atom := (evs.map atomsOf).flatten

/-- Byte-level acknowledgement discipline: no two sent bytes are adjacent,
i.e. every sent byte is followed by some read before the next byte goes
out.  This is the property claimed of the link. -/
def noTwoConsecWrites : List Atom → Bool
  | Atom.wr _ :: Atom.wr _ :: _ => false
  | _ :: rest => noTwoConsecWrites rest
  | [] => true

/-- Chunk-level acknowledgement discipline: every `send` event is
immediately followed by a `recv` event. -/
def sendsAcked : List Ev → Bool
  | [] => true
  | Ev.send _ :: Ev.recv _ :: rest => sendsAcked rest
  | Ev.send _ :: _ => false
  | _ :: rest => sendsAcked rest

def traceOf : Except (Fault × Transport) Transport → List Ev
  | Except.ok t => t.trace
  | Except.error (_, t) => t.trace

theorem sendsAcked_interleave (l : List Nat) :
    ∀ cs : List (List Nat), sendsAcked (interleaveAck cs ++ [Ev.recvLine l]) = true := by
  intro cs
  induction cs with
  | nil => rfl
  | cons c cs ih => simpa [interleaveAck, sendsAcked] using ih

/-- Characterisation following the spec wording: the body of one output
line, positions 0-7 within an 8-byte chunk, with the extra space before
position 4 separating the two blocks of 4. -/
def bodyFromSpec : Nat → List Nat → List Char
  | _, [] => []
  | j, b :: rest => (if j = 4 then [' '] else []) ++ byteHex b ++ bodyFromSpec (j + 1) rest

/-- Characterisation following the spec wording: one output line, the
address of the chunk start byte followed by the formatted chunk bytes. -/
def lineOfSpec (k : Nat) (chunk : List Nat) : List Char :=
  addrHex (8 * k) ++ bodyFromSpec 0 chunk

/-- Characterisation following the spec wording: one line per 8 input
bytes, the last chunk possibly shorter (fuel-based). -/
def chunkLinesF : Nat → Nat → List Nat → List (List Char)
  | 0, _, _ => []
  | fuel + 1, k, bs =>
    if bs.isEmpty then []
    else lineOfSpec k (bs.take 8) :: chunkLinesF fuel (k + 1) (bs.drop 8)

def chunkLinesSpec (k : Nat) (bs : List Nat) : List (List Char) :=
  chunkLinesF bs.length k bs

theorem hexDigitChar_ne_nl : ∀ n : Nat, hexDigitChar n ≠ '\n' := by
  intro n
  match n with
  | 0 | 1 | 2 | 3 | 4 | 5 | 6 | 7 | 8 | 9 | 10 | 11 | 12 | 13 | 14 | 15 => decide
  | _ + 16 => exact (by decide : ('?' : Char) ≠ '\n')

theorem toHexF_no_nl : ∀ (fuel n : Nat), '\n' ∉ toHexF fuel n := by
  intro fuel
  induction fuel with
  | zero => intro n; simp [toHexF]
  | succ fuel ih =>
    intro n
    rw [toHexF]
    by_cases h : n = 0
    · simp [h]
    · rw [if_neg h]
      intro hmem
      rcases List.mem_append.1 hmem with h1 | h2
      · exact ih (n / 16) h1
      · have : '\n' = hexDigitChar (n % 16) := by simpa using h2
        exact hexDigitChar_ne_nl (n % 16) this.symm

theorem padLeft_no_nl (w : Nat) (cs : List Char) (h : '\n' ∉ cs) :
    '\n' ∉ padLeft w cs := by
  intro hmem
  rcases List.mem_append.1 hmem with h1 | h2
  · have := List.eq_of_mem_replicate h1
    simp at this
  · exact h h2

theorem byteHex_no_nl (b : Nat) : '\n' ∉ byteHex b := by
  intro hmem
  rcases List.mem_append.1 hmem with h1 | h2
  · exact padLeft_no_nl 2 (toHexUpper b) (toHexF_no_nl b b) h1
  · simp at h2

theorem addrHex_no_nl (i : Nat) : '\n' ∉ addrHex i := by
  intro hmem
  rcases List.mem_append.1 hmem with h1 | h2
  · rcases List.mem_append.1 h1 with h3 | h4
    · simp at h3
    · exact padLeft_no_nl 4 (toHexUpper i) (toHexF_no_nl i i) h4
  · simp at h2

theorem bodyFromSpec_no_nl : ∀ (chunk : List Nat) (j : Nat), '\n' ∉ bodyFromSpec j chunk := by
  intro chunk
  induction chunk with
  | nil => intro j; simp [bodyFromSpec]
  | cons b rest ih =>
    intro j
    rw [bodyFromSpec]
    intro hmem
    rcases List.mem_append.1 hmem with h1 | h2
    · rcases List.mem_append.1 h1 with h3 | h4
      · by_cases hj : j = 4
        · rw [if_pos hj] at h3; simp at h3
        · rw [if_neg hj] at h3; simp at h3
      · exact byteHex_no_nl b h4
    · exact ih (j + 1) h2

theorem lineOfSpec_no_nl (k : Nat) (chunk : List Nat) : '\n' ∉ lineOfSpec k chunk := by
  intro hmem
  rcases List.mem_append.1 hmem with h1 | h2
  · exact addrHex_no_nl (8 * k) h1
  · exact bodyFromSpec_no_nl chunk 0 h2

theorem splitNl_ne_nil : ∀ xs : List Char, splitNl xs ≠ [] := by
  intro xs
  match xs with
  | [] => simp [splitNl]
  | c :: cs =>
    rw [splitNl]
    by_cases h : c = '\n'
    · simp [h]
    · rw [if_neg h]
      cases h2 : splitNl cs <;> simp

theorem splitNl_nl (ys : List Char) : splitNl ('\n' :: ys) = [] :: splitNl ys := by
  rw [splitNl]
  simp

theorem splitNl_append (xs ys : List Char) (h : '\n' ∉ xs) :
    splitNl (xs ++ ys) = (splitNl ys).modifyHead (xs ++ ·) := by
  induction xs with
  | nil =>
    cases h' : splitNl ys with
    | nil => exact absurd h' (splitNl_ne_nil ys)
    | cons a t => simp [h']
  | cons c cs ih =>
    have hc : c ≠ '\n' := fun e => h (e ▸ List.mem_cons_self _ _)
    have h' : '\n' ∉ cs := fun m => h (List.mem_cons_of_mem _ m)
    rw [List.cons_append, splitNl, if_neg hc, ih h']
    cases h2 : splitNl ys with
    | nil => exact absurd h2 (splitNl_ne_nil ys)
    | cons a t => simp

theorem chunkLinesF_nil : ∀ (fuel k : Nat), chunkLinesF fuel k [] = [] := by
  intro fuel k
  cases fuel <;> simp [chunkLinesF]

theorem chunkLinesF_fuel :
    ∀ (f g k : Nat) (bs : List Nat), bs.length ≤ f → bs.length ≤ g →
      chunkLinesF f k bs = chunkLinesF g k bs := by
  intro f
  induction f with
  | zero =>
    intro g k bs hf _
    have : bs = [] := List.eq_nil_of_length_eq_zero (by omega)
    rw [this, chunkLinesF_nil, chunkLinesF_nil]
  | succ f ih =>
    intro g k bs hf hg
    cases bs with
    | nil => rw [chunkLinesF_nil, chunkLinesF_nil]
    | cons b r =>
      cases g with
      | zero => simp at hg
      | succ g =>
        rw [chunkLinesF, chunkLinesF]
        simp only [List.isEmpty_cons, Bool.false_eq_true, if_false]
        congr 1
        apply ih
        · simp only [List.length_cons] at hf
          simp only [List.length_drop, List.length_cons]
          omega
        · simp only [List.length_cons] at hg
          simp only [List.length_drop, List.length_cons]
          omega

theorem chunkLinesSpec_cons (k : Nat) (bs : List Nat) (h : bs ≠ []) :
    chunkLinesSpec k bs = lineOfSpec k (bs.take 8) :: chunkLinesSpec (k + 1) (bs.drop 8) := by
  rw [chunkLinesSpec, chunkLinesSpec]
  cases bs with
  | nil => exact absurd rfl h
  | cons b r =>
    rw [List.length_cons, chunkLinesF]
    simp only [List.isEmpty_cons, Bool.false_eq_true, if_false]
    congr 1
    apply chunkLinesF_fuel
    · simp only [List.length_drop, List.length_cons]
      omega
    · exact le_refl _

theorem chunkLinesSpec_nil (k : Nat) : chunkLinesSpec k [] = [] := rfl

theorem chunkLinesSpec_length_key :
    ∀ (n : Nat) (bs : List Nat) (k : Nat), bs.length ≤ n →
      (chunkLinesSpec k bs).length = (bs.length + 7) / 8 := by
  intro n
  induction n with
  | zero =>
    intro bs k hle
    have : bs = [] := List.eq_nil_of_length_eq_zero (by omega)
    rw [this, chunkLinesSpec_nil]
    simp
  | succ n ih =>
    intro bs k hle
    cases hbs : bs with
    | nil => rw [chunkLinesSpec_nil]; simp
    | cons b r =>
      rw [← hbs, chunkLinesSpec_cons k bs (by rw [hbs]; simp), List.length_cons]
      have hlen : bs.length = r.length + 1 := by rw [hbs]; simp
      have hd : (bs.drop 8).length = bs.length - 8 := by simp
      rw [ih (bs.drop 8) (k + 1) (by omega)]
      rw [hd]
      omega

theorem fmtEntry_zero (k b : Nat) :
    fmtEntry (8 * k) b = '\n' :: (addrHex (8 * k) ++ byteHex b) := by
  rw [fmtEntry]
  have h : 8 * k % 8 = 0 := Nat.mul_mod_right 8 k
  rw [if_pos h]
  simp

theorem fmtEntry_inner (k j b : Nat) (h1 : 1 ≤ j) (h7 : j ≤ 7) :
    fmtEntry (8 * k + j) b = (if j = 4 then [' '] else []) ++ byteHex b := by
  rw [fmtEntry]
  have e8 : (8 * k + j) % 8 = j := by omega
  have hne : ¬ ((8 * k + j) % 8 = 0) := by omega
  rw [if_neg hne]
  by_cases hj : j = 4
  · have : (8 * k + j) % 4 = 0 := by omega
    rw [if_pos this, if_pos hj]
  · have : ¬ ((8 * k + j) % 4 = 0) := by omega
    rw [if_neg this, if_neg hj]

theorem fmtFrom_inner :
    ∀ (rest : List Nat) (j k : Nat), 1 ≤ j → j ≤ 8 →
      fmtFrom (8 * k + j) rest =
        bodyFromSpec j (rest.take (8 - j)) ++ fmtFrom (8 * (k + 1)) (rest.drop (8 - j)) := by
  intro rest
  induction rest with
  | nil => intro j k h1 h8; simp [fmtFrom, bodyFromSpec]
  | cons b r ih =>
    intro j k h1 h8
    by_cases hj8 : j = 8
    · subst hj8
      have he : 8 * k + 8 = 8 * (k + 1) := by ring
      rw [he]
      simp [bodyFromSpec]
    · have h7 : j ≤ 7 := by omega
      have hsub : 8 - j = (7 - j) + 1 := by omega
      rw [hsub, List.take_succ_cons, List.drop_succ_cons]
      rw [fmtFrom, fmtEntry_inner k j b h1 h7, bodyFromSpec]
      have he : 8 * k + j + 1 = 8 * k + (j + 1) := by ring
      rw [he, ih (j + 1) k (by omega) (by omega)]
      have he2 : 8 - (j + 1) = 7 - j := by omega
      rw [he2]
      simp [List.append_assoc]

theorem fmtFrom_chunk (bs : List Nat) (k : Nat) (hbs : bs ≠ []) :
    fmtFrom (8 * k) bs =
      '\n' :: (lineOfSpec k (bs.take 8) ++ fmtFrom (8 * (k + 1)) (bs.drop 8)) := by
  cases bs with
  | nil => exact absurd rfl hbs
  | cons b r =>
    rw [fmtFrom, fmtEntry_zero]
    have h1 : (8 : Nat) = 7 + 1 := by omega
    rw [h1, List.take_succ_cons, List.drop_succ_cons]
    have he : 8 * k + 1 = 8 * k + 1 := rfl
    rw [show fmtFrom (8 * k + 1) r =
          bodyFromSpec 1 (r.take (8 - 1)) ++ fmtFrom (8 * (k + 1)) (r.drop (8 - 1)) from
        fmtFrom_inner r 1 k (le_refl 1) (by omega)]
    rw [lineOfSpec, bodyFromSpec]
    simp [List.append_assoc]

theorem format_hex_lines_key :
    ∀ (n : Nat) (bs : List Nat) (k : Nat), bs.length ≤ n → bs ≠ [] →
      splitNl (fmtFrom (8 * k) bs) = [] :: chunkLinesSpec k bs := by
  intro n
  induction n with
  | zero =>
    intro bs k hle hne
    exact absurd (List.eq_nil_of_length_eq_zero (by omega)) hne
  | succ n ih =>
    intro bs k hle hne
    rw [fmtFrom_chunk bs k hne, splitNl_nl,
      splitNl_append _ _ (lineOfSpec_no_nl k (bs.take 8))]
    rw [chunkLinesSpec_cons k bs hne]
    by_cases hd : bs.drop 8 = []
    · rw [hd]
      rw [show fmtFrom (8 * (k + 1)) [] = [] from rfl]
      rw [show splitNl [] = [[]] from rfl]
      rw [chunkLinesSpec_nil]
      simp
    · have hlen : (bs.drop 8).length ≤ n := by
        have : bs.length ≥ 1 := List.length_pos.2 hne
        simp only [List.length_drop]
        omega
      rw [ih (bs.drop 8) (k + 1) hlen hd]
      simp

theorem format_hex_nil : format_hex [] = [[]] := rfl

theorem format_hex_lines (bs : List Nat) (h : bs ≠ []) :
    format_hex bs = [] :: chunkLinesSpec 0 bs := by
  rw [format_hex, show (0 : Nat) = 8 * 0 from rfl]
  exact format_hex_lines_key bs.length bs 0 (le_refl _) h

theorem format_hex_length (bs : List Nat) :
    (format_hex bs).length = 1 + (bs.length + 7) / 8 := by
  cases hbs : bs with
  | nil => rw [format_hex_nil]; simp
  | cons b r =>
    rw [← hbs, format_hex_lines bs (by rw [hbs]; simp), List.length_cons]
    rw [chunkLinesSpec_length_key bs.length bs 0 (le_refl _)]
    omega

theorem flatten_replicate_singleton (b : Nat) :
    ∀ n : Nat, (List.replicate n [b]).flatten = List.replicate n b := by
  intro n
  induction n with
  | zero => rfl
  | succ n ih =>
    rw [List.replicate_succ, List.replicate_succ, List.flatten_cons, ih]
    rfl

theorem write_file_run (file : FileLike) (start_address : Nat)
    (rRest : List (Option Nat)) (l : List Nat) (ls : List (List Nat)) (tr : List Ev)
    (n : Nat) (hparse : parseDec l = some n) :
    write_file file start_address
        ⟨List.replicate (writeChunks (FileLike.readAll file).1 start_address).length
            (some ack_char) ++ rRest,
          l :: ls, tr⟩ =
      if n = (FileLike.readAll file).1.length then
        Except.ok ⟨rRest, ls,
          tr ++ interleaveAck (writeChunks (FileLike.readAll file).1 start_address) ++
            [Ev.recvLine l]⟩
      else
        Except.error (Fault.countMismatch n (FileLike.readAll file).1.length,
          ⟨rRest, ls,
            tr ++ interleaveAck (writeChunks (FileLike.readAll file).1 start_address) ++
              [Ev.recvLine l]⟩) := by
  have hrun := ackWriteChunks_allAck
    (writeChunks (FileLike.readAll file).1 start_address) rRest (l :: ls) tr
  rw [write_file, hrun]
  dsimp only [readLine]
  rw [hparse]

/-- Claim C1, counterexample: the claim says every single byte written to
the transport during a frame is acknowledged before the next byte is sent.
In a complete successful write frame (one content byte 0x41 at address 0,
all sends acknowledged, count line "1"), the byte-level trace contains two
adjacent sent bytes with no intervening read: the token `"w "` goes out as
one two-byte `self.write` call answered by a single acknowledgement, so
`noTwoConsecWrites` is false on the trace. -/
theorem c1_counterexample :
    noTwoConsecWrites (atomsTrace (traceOf (write_file (FileLike.path [65]) 0
      ⟨List.replicate 4 (some ack_char), [[49, 10]], []⟩))) = false := by
  decide

/-- Claim C1, amended: acknowledgement is per `acknowledged_write` chunk,
not per byte.  In a fully acknowledged write frame the transport trace is
exactly the chunk sequence of `writeChunks` — the two-byte `"w "` token and
the multi-byte decimal address as single chunks, every escaped payload byte
and `end_char` as one-byte chunks — with each `send` event immediately
followed by its acknowledgement `recv`, and finally the count line read. -/
theorem c1_amended (file : FileLike) (start_address : Nat)
    (rRest : List (Option Nat)) (l : List Nat) (ls : List (List Nat)) (tr : List Ev)
    (hparse : parseDec l = some (FileLike.readAll file).1.length) :
    write_file file start_address
        ⟨List.replicate (writeChunks (FileLike.readAll file).1 start_address).length
            (some ack_char) ++ rRest,
          l :: ls, tr⟩ =
      Except.ok ⟨rRest, ls,
        tr ++ interleaveAck (writeChunks (FileLike.readAll file).1 start_address) ++
          [Ev.recvLine l]⟩
    ∧ sendsAcked (interleaveAck (writeChunks (FileLike.readAll file).1 start_address) ++
        [Ev.recvLine l]) = true := by
  constructor
  · rw [write_file_run file start_address rRest l ls tr
      (FileLike.readAll file).1.length hparse]
    rw [if_pos rfl]
  · exact sendsAcked_interleave l _

/-- Witness for C1 amended at a concrete input: one content byte 0x41 at
address 0, all four chunks acknowledged, count line "1". -/
theorem c1_amended_witness :
    write_file (FileLike.path [65]) 0
        ⟨List.replicate (writeChunks (FileLike.readAll (FileLike.path [65])).1 0).length
            (some ack_char) ++ [],
          [49, 10] :: [], []⟩ =
      Except.ok ⟨[], [],
        [] ++ interleaveAck (writeChunks (FileLike.readAll (FileLike.path [65])).1 0) ++
          [Ev.recvLine [49, 10]]⟩
    ∧ sendsAcked (interleaveAck (writeChunks (FileLike.readAll (FileLike.path [65])).1 0) ++
        [Ev.recvLine [49, 10]]) = true :=
  c1_amended (FileLike.path [65]) 0 [] [49, 10] [] [] (by decide)

/-- Claim C2: for every byte sequence S, feeding the wire image
`escape_file_contents S` followed by an unescaped `end_char` to the read
loop reconstructs exactly S as the raw accumulated output (escaped pairs
are accepted literally, without terminating the frame). -/
theorem c2_roundtrip (S : List Nat) (rest : List (Option Nat)) :
    readLoop [] ((escape_file_contents S).map some ++ some end_char :: rest) =
      LoopRes.done S rest := by
  simpa using readLoop_escaped S [] rest

/-- Claim C3: `escape_byte` is the identity on every byte other than
`end_char` and `esc_char`, maps those two to the `esc_char`-prefixed pair,
and `escape_file_contents` applies it per input byte with the results
concatenated in input order. -/
theorem c3_escape :
    (∀ b : Nat, b ≠ end_char → b ≠ esc_char → escape_byte b = [b])
    ∧ escape_byte end_char = [esc_char, end_char]
    ∧ escape_byte esc_char = [esc_char, esc_char]
    ∧ ∀ S : List Nat, escape_file_contents S = (S.map escape_byte).flatten := by
  refine ⟨?_, ?_, ?_, escape_file_contents_eq⟩
  · intro b h1 h2
    rw [escape_byte, if_neg (by tauto)]
  · rw [escape_byte, if_pos (Or.inl rfl)]
  · rw [escape_byte, if_pos (Or.inr rfl)]

/-- Witness for C3 at the concrete byte 0x41. -/
theorem c3_escape_witness : escape_byte 65 = [65] :=
  c3_escape.1 65 (by decide) (by decide)

/-- Claim C4: in `read_contents`, after the `end_char` terminator the
trailing count line is compared against the length of the escaped form of
the accumulated buffer; a difference raises the count-mismatch
AssertionError, and otherwise the raw (unescaped) accumulated bytes are
returned. -/
theorem c4_read_count (start_address length : Nat) (wire : List (Option Nat))
    (content : List Nat) (rest : List (Option Nat)) (l : List Nat)
    (ls : List (List Nat)) (tr : List Ev) (n : Nat)
    (hloop : readLoop [] wire = LoopRes.done content rest)
    (hparse : parseDec l = some n) :
    (n = (escape_file_contents content).length →
      read_contents start_address length
          ⟨List.replicate 3 (some ack_char) ++ wire, l :: ls, tr⟩ =
        ReadResult.ok content
          ⟨rest, ls, tr ++ interleaveAck (readChunks start_address length) ++
            [Ev.recvLine l]⟩)
    ∧ (n ≠ (escape_file_contents content).length →
      read_contents start_address length
          ⟨List.replicate 3 (some ack_char) ++ wire, l :: ls, tr⟩ =
        ReadResult.fault (Fault.countMismatch (escape_file_contents content).length n)
          ⟨rest, ls, tr ++ interleaveAck (readChunks start_address length) ++
            [Ev.recvLine l]⟩) := by
  have hrun := ackWriteChunks_allAck (readChunks start_address length) wire (l :: ls) tr
  have h3 : (readChunks start_address length).length = 3 := rfl
  rw [h3] at hrun
  constructor
  · intro he
    rw [read_contents, hrun]
    dsimp only [readLine]
    rw [hloop]
    dsimp only
    rw [hparse]
    dsimp only
    rw [if_pos he]
  · intro hne
    rw [read_contents, hrun]
    dsimp only [readLine]
    rw [hloop]
    dsimp only
    rw [hparse]
    dsimp only
    rw [if_neg hne]

/-- Witness for C4 at a concrete input: the device sends the escaped pair
(esc_char, esc_char) then 0x41 then `end_char` and the count line "3"; the
escaped length of the accumulated buffer [27, 65] is 3, so the raw bytes
are returned. -/
theorem c4_read_count_witness :
    read_contents 0 2
        ⟨List.replicate 3 (some ack_char) ++ [some 27, some 27, some 65, some 4],
          [51, 10] :: [], []⟩ =
      ReadResult.ok [27, 65]
        ⟨[], [], [] ++ interleaveAck (readChunks 0 2) ++ [Ev.recvLine [51, 10]]⟩ :=
  (c4_read_count 0 2 [some 27, some 27, some 65, some 4] [27, 65] [] [51, 10] [] [] 3
    (by decide) (by decide)).1 (by decide)

/-- Claim C5: after sending `end_char`, `write_file` reads one line, parses
it as the count of raw (pre-escape) bytes the device received, and raises
the count-mismatch AssertionError exactly when this count differs from the
content source's raw (unescaped) length. -/
theorem c5_write_count (file : FileLike) (start_address : Nat)
    (rRest : List (Option Nat)) (l : List Nat) (ls : List (List Nat)) (tr : List Ev)
    (n : Nat) (hparse : parseDec l = some n) :
    (n = (FileLike.readAll file).1.length →
      write_file file start_address
          ⟨List.replicate (writeChunks (FileLike.readAll file).1 start_address).length
              (some ack_char) ++ rRest,
            l :: ls, tr⟩ =
        Except.ok ⟨rRest, ls,
          tr ++ interleaveAck (writeChunks (FileLike.readAll file).1 start_address) ++
            [Ev.recvLine l]⟩)
    ∧ (n ≠ (FileLike.readAll file).1.length →
      write_file file start_address
          ⟨List.replicate (writeChunks (FileLike.readAll file).1 start_address).length
              (some ack_char) ++ rRest,
            l :: ls, tr⟩ =
        Except.error (Fault.countMismatch n (FileLike.readAll file).1.length,
          ⟨rRest, ls,
            tr ++ interleaveAck (writeChunks (FileLike.readAll file).1 start_address) ++
              [Ev.recvLine l]⟩)) := by
  have h := write_file_run file start_address rRest l ls tr n hparse
  constructor
  · intro he
    rw [h, if_pos he]
  · intro hne
    rw [h, if_neg hne]

/-- Witness for C5 at a concrete input: the device reports 2 raw bytes
("2") while the content source holds a single byte, so the count-mismatch
AssertionError is raised. -/
theorem c5_write_count_witness :
    write_file (FileLike.path [65]) 0
        ⟨List.replicate (writeChunks (FileLike.readAll (FileLike.path [65])).1 0).length
            (some ack_char) ++ [],
          [50, 10] :: [], []⟩ =
      Except.error
        (Fault.countMismatch 2 (FileLike.readAll (FileLike.path [65])).1.length,
          ⟨[], [],
            [] ++ interleaveAck (writeChunks (FileLike.readAll (FileLike.path [65])).1 0) ++
              [Ev.recvLine [50, 10]]⟩) :=
  (c5_write_count (FileLike.path [65]) 0 [] [50, 10] [] [] 2 (by decide)).2 (by decide)

/-- Claim C6, counterexample: the claim says the aborting fault is a Link
Fault carrying the drained residual transport bytes.  On a write whose
first send is answered with byte 0 and whose drained residual line is
[0xFF], the source evaluates `flush_read_buffer().decode("ascii")` while
constructing the ConnectionError; 0xFF is not ASCII-decodable, so a
UnicodeDecodeError surfaces instead and the residual payload is lost — the
result is not a Link Fault carrying [0xFF]. -/
theorem c6_counterexample :
    write_file (FileLike.path [65]) 0 ⟨[some 0], [[255], []], []⟩ =
      Except.error (Fault.unicodeDecodeError,
        ⟨[], [], [Ev.send [119, 32], Ev.recv (some 0), Ev.recvLine [255], Ev.recvLine []]⟩)
    ∧ Fault.unicodeDecodeError ≠ Fault.linkFault [255] := by
  exact ⟨rfl, by decide⟩

/-- Claim C6, amended: if any acknowledged send of a write frame receives
anything other than `ack_char` (a timeout included), `write_file` aborts
before the trailing count line is parsed: exactly one fault surfaces and it
is never the count-mismatch AssertionError.  The surfacing fault is the
ConnectionError carrying the drained residual transport bytes when the
residual is ASCII-decodable (every byte below 0x80, the empty residual of a
silent device included), and the UnicodeDecodeError from `decode("ascii")`
otherwise, in which case the residual payload is lost. -/
theorem c6_amended :
    (∀ (file : FileLike) (start_address : Nat) (t : Transport),
      (∃ i, i < (writeChunks (FileLike.readAll file).1 start_address).length ∧
        t.reads[i]? ≠ some (some ack_char)) →
      ∃ f t', write_file file start_address t = Except.error (f, t') ∧
        ((∃ residual, f = Fault.linkFault residual) ∨ f = Fault.unicodeDecodeError))
    ∧ (∀ (chunk : List Nat) (t : Transport), t.reads.head? ≠ some (some ack_char) →
      ∃ t', acknowledged_write chunk t =
        Except.error
          ((if asciiDecodable (drainL t.lines).1 then Fault.linkFault (drainL t.lines).1
            else Fault.unicodeDecodeError), t'))
    ∧ (∀ (file : FileLike) (start_address : Nat) (t : Transport) (n m : Nat)
        (t'' : Transport),
      (∃ i, i < (writeChunks (FileLike.readAll file).1 start_address).length ∧
        t.reads[i]? ≠ some (some ack_char)) →
      write_file file start_address t ≠
        Except.error (Fault.countMismatch n m, t'')) := by
  refine ⟨?_, acknowledged_write_fail, ?_⟩
  · intro file start_address t hex
    obtain ⟨f, t', h, hf⟩ :=
      ackWriteChunks_sendFault (writeChunks (FileLike.readAll file).1 start_address) t hex
    refine ⟨f, t', ?_, hf⟩
    rw [write_file, h]
  · intro file start_address t n m t'' hex hcontra
    obtain ⟨f, t', h, hf⟩ :=
      ackWriteChunks_sendFault (writeChunks (FileLike.readAll file).1 start_address) t hex
    rw [write_file, h] at hcontra
    simp only [Except.error.injEq, Prod.mk.injEq] at hcontra
    rcases hf with ⟨residual, rfl⟩ | rfl
    · simp at hcontra
    · simp at hcontra

/-- Witness for C6 amended at a concrete input: the very first send is
answered with byte 0 instead of `ack_char` and the drained residual [0x41]
is ASCII, so the write aborts with the link fault carrying it. -/
theorem c6_amended_witness :
    ∃ f t', write_file (FileLike.path [65]) 0 ⟨[some 0], [[65], []], []⟩ =
        Except.error (f, t') ∧
      ((∃ residual, f = Fault.linkFault residual) ∨ f = Fault.unicodeDecodeError) :=
  c6_amended.1 (FileLike.path [65]) 0 ⟨[some 0], [[65], []], []⟩ ⟨0, by decide, by decide⟩

/-- Claim C7 (code bug): `check_filled(0xFF, 1, 0)` on an all-0xFF region
succeeds, but on a region reading back 0x00 the content-mismatch
AssertionError from `verify_file` is caught and the handler evaluates
`f"EEPROM is not filled with 0x(fill_byte:02X)"` with `fill_byte : bytes`,
which raises TypeError — so the promised not-filled AssertionError naming
the fill byte is never produced. -/
theorem c7_check_filled_bug :
    check_filled [255] 1 0 ⟨[some 6, some 6, some 6, some 0, some 4], [[49, 10]], []⟩ =
      VerifyResult.fault Fault.typeError
        ⟨[], [], [Ev.send [114, 32], Ev.recv (some 6), Ev.send [48], Ev.recv (some 6),
          Ev.send [49], Ev.recv (some 6), Ev.recvLine [49, 10]]⟩
    ∧ check_filled [255] 1 0 ⟨[some 6, some 6, some 6, some 255, some 4], [[49, 10]], []⟩ =
      VerifyResult.ok
        ⟨[], [], [Ev.send [114, 32], Ev.recv (some 6), Ev.send [48], Ev.recv (some 6),
          Ev.send [49], Ev.recv (some 6), Ev.recvLine [49, 10]]⟩ := by
  constructor <;> decide

/-- Claim C8, counterexample: the claim says `format_hex` yields exactly
one line per 8 input bytes, so the 16-byte example should yield two lines.
The accumulator string starts with a newline, so the split yields a leading
empty line and the example yields three list elements, the first empty. -/
theorem c8_counterexample :
    (format_hex [48, 49, 50, 51, 52, 53, 54, 55, 56, 57, 65, 66, 67, 68, 69, 70]).length ≠ 2
    ∧ (format_hex [48, 49, 50, 51, 52, 53, 54, 55, 56, 57, 65, 66, 67, 68, 69, 70]).length = 3
    ∧ (format_hex [48, 49, 50, 51, 52, 53, 54, 55, 56, 57, 65, 66, 67, 68, 69, 70]).head? =
        some [] := by
  refine ⟨?_, ?_, ?_⟩ <;> decide

/-- Claim C8, amended: `format_hex` yields a leading empty line followed by
one line per 8 input bytes (the last possibly shorter), each line prefixed
with the 4-hex-digit address of its first byte and the 8 bytes grouped in
two blocks of 4 separated by a space; the list length is always
1 + ceil(n/8); the 16-byte example yields the empty line and two data
lines starting 0x0000: and 0x0008:. -/
theorem c8_amended :
    format_hex [] = [[]]
    ∧ (∀ bs : List Nat, bs ≠ [] → format_hex bs = [] :: chunkLinesSpec 0 bs)
    ∧ (∀ bs : List Nat, (format_hex bs).length = 1 + (bs.length + 7) / 8)
    ∧ format_hex [48, 49, 50, 51, 52, 53, 54, 55, 56, 57, 65, 66, 67, 68, 69, 70] =
        [[],
          String.toList "0x0000:    30 31 32 33  34 35 36 37 ",
          String.toList "0x0008:    38 39 41 42  43 44 45 46 "] :=
  ⟨format_hex_nil, format_hex_lines, format_hex_length, by decide⟩

/-- Witness for C8 amended at the concrete one-byte input [0]. -/
theorem c8_amended_witness :
    format_hex [0] = [] :: chunkLinesSpec 0 [0] :=
  c8_amended.2.1 [0] (by decide)

/-- Claim C9, counterexample: reading the same `FillBytes` instance a
second time does not yield the same bytes as the first read: the first
read of `FillBytes(0xFF, 16)` yields the 16 fill bytes, the second read of
the same (now exhausted) instance yields the empty sequence. -/
theorem c9_counterexample :
    (FileLike.readAll (FileLike.stream (FillBytes.make [255] 16))).1 =
      List.replicate 16 255
    ∧ (FileLike.readAll
        (FileLike.readAll (FileLike.stream (FillBytes.make [255] 16))).2).1 = []
    ∧ List.replicate 16 255 ≠ ([] : List Nat) := by
  refine ⟨?_, ?_, ?_⟩ <;> decide

/-- Claim C9, amended: repeated consumption works by re-creating the
source, not by re-reading an instance.  A path-backed source is re-opened
on every consumption and always yields the file contents; a fresh
`FillBytes(b, n)` yields the n fill bytes, but a second read of the same
stream instance yields the empty sequence (which is why `fill` and
`check_filled` each construct a fresh `FillBytes`). -/
theorem c9_amended :
    (∀ c : List Nat, (FileLike.readAll (FileLike.path c)).1 = c
      ∧ (FileLike.readAll (FileLike.readAll (FileLike.path c)).2).1 = c)
    ∧ (∀ b n : Nat, (ByteStream.read (FillBytes.make [b] n)).1 = List.replicate n b)
    ∧ (∀ b n : Nat, (ByteStream.read (ByteStream.read (FillBytes.make [b] n)).2).1 = []) := by
  refine ⟨fun c => ⟨rfl, rfl⟩, fun b n => ?_, fun b n => ?_⟩
  · show (List.replicate n [b]).flatten.drop 0 = List.replicate n b
    rw [List.drop_zero]
    exact flatten_replicate_singleton b n
  · exact List.drop_length _

/-- Claim C10, counterexample: the claim says a timed-out (empty) read in
the data phase raises no fault and that `read_contents` loops forever on a
transport that stops sending.  If the transport stops right after an
`esc_char`, the next read times out and the loop raises the invalid-escape
AssertionError instead of looping. -/
theorem c10_counterexample :
    readLoop [] [some esc_char] = LoopRes.invalidEscape [] []
    ∧ readLoop [] [some esc_char] ≠ LoopRes.diverges [] := by
  refine ⟨?_, ?_⟩ <;> decide

/-- Claim C10, amended: a timed-out read at the top of the data-phase loop
raises no fault and is a no-op, so the loop runs forever on a transport
that stops sending outside an escape sequence, and the loop completes
normally only if an unescaped `end_char` is delivered; but a read that
times out immediately after an `esc_char` raises the invalid-escape
AssertionError. -/
theorem c10_amended :
    (∀ (c : List Nat) (rest : List (Option Nat)),
      readLoop c (none :: rest) = readLoop c rest)
    ∧ (∀ (c : List Nat) (n : Nat),
      readLoop c (List.replicate n none) = LoopRes.diverges c)
    ∧ (∀ (reads : List (Option Nat)) (c out : List Nat) (rest : List (Option Nat)),
      readLoop c reads = LoopRes.done out rest → some end_char ∈ reads)
    ∧ (∀ (c : List Nat) (rest : List (Option Nat)),
      readLoop c (some esc_char :: none :: rest) = LoopRes.invalidEscape c rest) :=
  ⟨readLoop_none, readLoop_all_none, readLoop_done_mem, readLoop_esc_none⟩

/-- Witness for C10 amended: a concrete stream delivering 0x41 then
`end_char` completes the loop, and `end_char` is indeed in the stream. -/
theorem c10_amended_witness : some end_char ∈ [some 65, some end_char] :=
  c10_amended.2.2.1 [some 65, some end_char] [] [65] [] (by decide)

end EEPro
